import Mathlib

/-
Verification development for the world-storage and chunk-codec core of the
dragonfly fork (block-state registry, paletted-storage/chunk codec, and the
leveldb-backed world provider).

The Go sources are embedded shallowly:
* `server/world/block_state.go`  — property hashing and the block-state registry;
* `server/world/mcdb/db.go`      — the world provider (chunk/entity persistence);
* the `chunk` package decoder    — paletted storages, biomes, network decoding;
* the dimension registry.

Machine integers are modelled as `Nat`/`Int` with explicit `% 2^w` where
overflow matters, byte strings as `List Nat`, Go maps as association lists,
and the leveldb store as an association list of key/value byte strings.
Code that can fail returns `Except Unit _` (the error payloads — Go error
messages — are collapsed to `Unit`; no property below depends on message
text). Functions of the repository that are only *called* by the embedded
files (palette decoding, NBT decoding, the entity registry, the logger) are
taken as explicit function parameters, so every theorem quantifies over
their behaviour.
-/

/-! ## Byte-level helpers -/

/-- Little-endian bytes of a 32-bit word (`binary.LittleEndian.PutUint32`). -/
def le32 (n : Nat) : List Nat :=
  [n % 256, n / 256 % 256, n / 65536 % 256, n / 16777216 % 256]

/-- Little-endian bytes of a 64-bit word (`binary.LittleEndian.PutUint64` /
`AppendUint64`). -/
def le64 (n : Nat) : List Nat :=
  [n % 256, n / 2 ^ 8 % 256, n / 2 ^ 16 % 256, n / 2 ^ 24 % 256,
   n / 2 ^ 32 % 256, n / 2 ^ 40 % 256, n / 2 ^ 48 % 256, n / 2 ^ 56 % 256]

/-- Go `uint32(x)` for a signed integer: two's-complement truncation. -/
def toU32 (x : Int) : Nat := (x.emod 4294967296).toNat

/-- Go `uint64(x)` for a signed 64-bit integer. -/
def toU64 (x : Int) : Nat := (x.emod 18446744073709551616).toNat

/-- Go `int8(b)` of a byte value: reinterpret `0..255` as `-128..127`. -/
def toI8 (b : Nat) : Int := if b % 256 < 128 then ((b % 256 : Nat) : Int) else ((b % 256 : Nat) : Int) - 256

/-- Little-endian `uint64` read, reinterpreted as a signed `int64`
(`int64(binary.LittleEndian.Uint64(..))`). -/
def fromLE64 (bs : List Nat) : Int :=
  let n : Nat := (bs.take 8).reverse.foldl (fun acc b => acc * 256 + b % 256) 0
  if n < 2 ^ 63 then (n : Int) else (n : Int) - 2 ^ 64

/-- UTF-8 encoding of a single character, as Go lays strings out in memory. -/
def utf8Char (c : Char) : List Nat :=
  let n := c.toNat
  if n < 128 then [n]
  else if n < 2048 then [192 + n / 64, 128 + n % 64]
  else if n < 65536 then [224 + n / 4096, 128 + n / 64 % 64, 128 + n % 64]
  else [240 + n / 262144, 128 + n / 4096 % 64, 128 + n / 64 % 64, 128 + n % 64]

/-- The raw UTF-8 bytes of a string (Go `[]byte(s)` / `WriteString`). -/
def utf8Bytes (s : String) : List Nat := s.data.flatMap utf8Char

/-! ## Lexicographic string order

Go's `sort.Slice(keys, func(i, j int) bool { return keys[i] < keys[j] })`
compares strings byte-wise; UTF-8 preserves code-point order, so this is
the same as lexicographic comparison of the code points. -/

def lexLe : List Nat → List Nat → Bool
  | [], _ => true
  | _ :: _, [] => false
  | a :: as, b :: bs =>
    if a < b then true
    else if b < a then false
    else lexLe as bs

def strLe (a b : String) : Bool := lexLe (a.data.map Char.toNat) (b.data.map Char.toNat)

/-- The string order used to sort property keys, as a relation. -/
def SLe (a b : String) : Prop := strLe a b = true

instance : DecidableRel SLe := fun a b => instDecidableEqBool (strLe a b) true

theorem lexLe_total : ∀ a b, lexLe a b = true ∨ lexLe b a = true := by
  intro a
  induction a with
  | nil => intro b; left; rfl
  | cons x xs ih =>
    intro b
    cases b with
    | nil => right; rfl
    | cons y ys =>
      by_cases h1 : x < y
      · left; simp [lexLe, h1]
      · by_cases h2 : y < x
        · right; simp [lexLe, h2]
        · rcases ih ys with h | h <;> [left; right] <;> simp [lexLe, h1, h2, h]

theorem lexLe_antisymm : ∀ a b, lexLe a b = true → lexLe b a = true → a = b := by
  intro a
  induction a with
  | nil => intro b _ hba; cases b with
    | nil => rfl
    | cons y ys => simp [lexLe] at hba
  | cons x xs ih =>
    intro b hab hba
    cases b with
    | nil => simp [lexLe] at hab
    | cons y ys =>
      by_cases h1 : x < y
      · simp [lexLe, h1, Nat.not_lt.mpr (Nat.le_of_lt h1), Nat.lt_irrefl] at hba
      · by_cases h2 : y < x
        · simp [lexLe, h1, h2] at hab
        · have hxy : x = y := by omega
          subst hxy
          simp [lexLe, h1, h2] at hab hba
          rw [ih ys hab hba]

theorem lexLe_trans : ∀ a b c, lexLe a b = true → lexLe b c = true → lexLe a c = true := by
  intro a
  induction a with
  | nil => intro b c _ _; rfl
  | cons x xs ih =>
    intro b c hab hbc
    cases b with
    | nil => simp [lexLe] at hab
    | cons y ys =>
      cases c with
      | nil => simp [lexLe] at hbc
      | cons z zs =>
        simp only [lexLe] at hab hbc ⊢
        by_cases h1 : x < y <;> by_cases h2 : y < z <;>
          simp [h1, h2] at hab hbc ⊢ <;> try omega
        all_goals {
          have hxy : x = y := by omega
          have hyz : y = z := by omega
          subst hxy; subst hyz
          simp [Nat.lt_irrefl] at hab hbc ⊢
          exact ih ys zs hab hbc
        }

theorem charToNat_injective : Function.Injective Char.toNat := by
  intro a b h
  exact Char.ext (UInt32.ext h)

instance : IsTotal String SLe :=
  ⟨fun a b => lexLe_total (a.data.map Char.toNat) (b.data.map Char.toNat)⟩

instance : IsTrans String SLe :=
  ⟨fun a b c => lexLe_trans (a.data.map Char.toNat) (b.data.map Char.toNat) (c.data.map Char.toNat)⟩

instance : IsAntisymm String SLe := by
  constructor
  intro a b hab hba
  have hmap := lexLe_antisymm _ _ hab hba
  have hdata : a.data = b.data := (List.map_injective_iff.mpr charToNat_injective) hmap
  cases a; cases b; exact congrArg String.mk hdata

/-! ## Property values and the canonical property hash
(`server/world/block_state.go`, `hashProperties`)

A block property value in the source is a dynamically typed `any` restricted
to `bool`, `uint8`, `int32` and `string`; any other type panics. The closed
sum below covers exactly those four cases, so the panic branch has no
counterpart. A Go `map[string]any` is embedded as an association list. -/

inductive PropValue where
  | pbool (v : Bool)
  | pu8 (v : Nat)
  | pi32 (v : Int)
  | pstr (v : String)
deriving DecidableEq

abbrev PropMap := List (String × PropValue)

/-- The bytes `hashProperties` appends for one property value:
`bool → 0x01/0x00`, `uint8 → the byte`, `int32 → 4 bytes little-endian`
(the `unsafe.Pointer` reinterpretation on a little-endian machine),
`string → raw UTF-8 bytes`. -/
def encodePropValue : PropValue → List Nat
  | .pbool true => [1]
  | .pbool false => [0]
  | .pu8 v => [v % 256]
  | .pi32 v => le32 (toU32 v)
  | .pstr s => utf8Bytes s

/-- `hashProperties` (block_state.go:275): sort the key set, then concatenate
the encodings of the values in sorted key order. Note that the *keys
themselves are never written* — only the values are. The result models the
byte string built by the `strings.Builder`. -/
def hashProperties (props : PropMap) : List Nat :=
  let keys := List.insertionSort SLe (props.map Prod.fst)
  keys.flatMap fun k =>
    match props.lookup k with
    | some v => encodePropValue v
    | none => []

/-- Go's `hashProperties` takes a possibly-`nil` map and returns `""` for
`nil`; `none` models a nil map. -/
def hashPropertiesO : Option PropMap → List Nat
  | none => []
  | some m => hashProperties m

theorem flatMap_congr {α β : Type} {l : List α} {f g : α → List β}
    (h : ∀ a ∈ l, f a = g a) : l.flatMap f = l.flatMap g := by
  induction l with
  | nil => rfl
  | cons x xs ih =>
    simp only [List.flatMap_cons]
    rw [h x (List.mem_cons_self x xs), ih fun a ha => h a (List.mem_cons_of_mem x ha)]

/-- C1, counterexample: the hash only concatenates values, never keys, so the
singleton maps `{a ↦ true}` and `{b ↦ true}` — which do not even have the
same key set — hash to the same byte string `[0x01]`. -/
theorem c1_hash_collision_counterexample :
    hashProperties [("a", PropValue.pbool true)] = hashProperties [("b", PropValue.pbool true)] ∧
    List.lookup ("a") [(("a" : String), PropValue.pbool true)] = some (PropValue.pbool true) ∧
    List.lookup ("a") [(("b" : String), PropValue.pbool true)] = none := by
  refine ⟨rfl, rfl, rfl⟩

/-- C1 (amended): the hash *is* independent of insertion order: if two
property lists have the same keys (as a multiset) and agree on the value of
every key, they hash identically. (The converse direction of the original
claim is false, see the counterexample.) -/
theorem c1_hash_order_independent (p q : PropMap)
    (hperm : (p.map Prod.fst).Perm (q.map Prod.fst))
    (hvals : ∀ k ∈ p.map Prod.fst, p.lookup k = q.lookup k) :
    hashProperties p = hashProperties q := by
  have hsorted : List.insertionSort SLe (p.map Prod.fst) = List.insertionSort SLe (q.map Prod.fst) := by
    refine List.eq_of_perm_of_sorted ?_ (List.sorted_insertionSort SLe _) (List.sorted_insertionSort SLe _)
    exact ((List.perm_insertionSort SLe _).trans hperm).trans (List.perm_insertionSort SLe _).symm
  unfold hashProperties
  rw [hsorted]
  refine flatMap_congr ?_
  intro k hk
  have hk2 : k ∈ p.map Prod.fst := by
    have := (List.perm_insertionSort SLe (q.map Prod.fst)).mem_iff.mp hk
    exact hperm.mem_iff.mpr this
  rw [hvals k hk2]

/-- Witness for `c1_hash_order_independent` at a concrete pair of two-entry
maps listed in opposite orders. -/
theorem c1_hash_order_independent_witness :
    hashProperties [("a", PropValue.pbool true), ("b", PropValue.pu8 7)] =
      hashProperties [("b", PropValue.pu8 7), ("a", PropValue.pbool true)] :=
  c1_hash_order_independent _ _ (by decide) (by decide)

/-! ## Dimensions (`world` package dimension registry)

The registry is built from the map `{0: Overworld, 1: Nether, 2: End,
10: Overworld_legacy}`; when inverting it, a legacy overworld key is
shifted down by 10, so `Overworld_legacy` is looked up as ID 0. -/

inductive MDimension where
  | overworld
  | nether
  | theEnd
  | overworldLegacy
deriving DecidableEq

def dimensionPairs : List (Nat × MDimension) :=
  [(0, .overworld), (1, .nether), (2, .theEnd), (10, .overworldLegacy)]

/-- The `IDs` map built by `newDimensionRegistry`: `k -= 10` for the legacy
overworld. (Go map iteration order does not matter: the four dimension keys
are distinct, so the resulting map is order-independent.) -/
def dimensionRegIDs : List (MDimension × Nat) :=
  dimensionPairs.map fun kv =>
    (kv.2, match kv.2 with
           | .overworldLegacy => kv.1 - 10
           | _ => kv.1)

/-- `world.DimensionID`: the ID a dimension was registered with, plus the
`found` flag (`0, false` for an unregistered dimension). -/
def DimensionID (d : MDimension) : Nat × Bool :=
  match dimensionRegIDs.lookup d with
  | some i => (i, true)
  | none => (0, false)

/-- `Range()` of each dimension (part of the dimension implementations). -/
def dimRange : MDimension → Int × Int
  | .overworld => (-64, 319)
  | .nether => (0, 127)
  | .theEnd => (0, 255)
  | .overworldLegacy => (0, 255)

/-- Modelled from the spec: `cube.Range.Height()` (the `cube` package is not
among the sources) — the difference of the two bounds. -/
def rangeHeight (r : Int × Int) : Int := r.2 - r.1

/-- Number of sub-chunks the provider allocates for a dimension:
`(dim.Range().Height()>>4)+1`. -/
def subChunkCount (d : MDimension) : Nat :=
  ((rangeHeight (dimRange d)).fdiv 16 + 1).toNat

/-! ## Chunk index keys (`mcdb/db.go`, `index`) -/

/-- Modelled from the spec: the key-suffix constants of the Bedrock schema
(`keys.go` is not among the sources; §4.4 of the spec fixes the byte
values): `/` current version, `v` legacy version, `+` 3D biome blob,
`6` finalisation, `,` sub-chunk data, `1` block entities, `2` entities. -/
def keyVersion : Nat := 0x2f

def keyVersionOld : Nat := 0x76

def key3DData : Nat := 0x2b

def keyFinalisation : Nat := 0x36

def keySubChunkData : Nat := 0x2c

def keyBlockEntities : Nat := 0x31

def keyEntities : Nat := 0x32

/-- Modelled from the spec: the current chunk version byte written by
`SaveChunk` (constant `chunkVersion`; the exact value is not fixed by the
spec and no property depends on it). -/
def chunkVersion : Nat := 40

/-- Write a 32-bit little-endian word into a byte list at offset `off`
(`binary.LittleEndian.PutUint32(b[off:], n)`). -/
def write32At (b : List Nat) (off : Nat) (n : Nat) : List Nat :=
  ((((b.set off (n % 256)).set (off + 1) (n / 256 % 256)).set
      (off + 2) (n / 65536 % 256)).set (off + 3) (n / 16777216 % 256))

/-- `(*DB).index`: a 12-byte buffer is filled with `uint32(x)`, `uint32(z)`
and — only if the dimension ID is non-zero — `uint32(dim)`; for ID zero the
first 8 bytes are returned. -/
def indexKey (pos : Int × Int) (d : MDimension) : List Nat :=
  let dim := (DimensionID d).1
  let b := List.replicate 12 0
  let b := write32At b 0 (toU32 pos.1)
  let b := write32At b 4 (toU32 pos.2)
  if dim = 0 then b.take 8
  else write32At b 8 dim

/-- C9: the chunk index key is `le32(x) ++ le32(z)`, with `le32(dim)`
appended exactly when the dimension ID is non-zero; its length is 8 or 12
accordingly, and the legacy overworld registers as ID 0 (hence an 8-byte
key). -/
theorem c9_index_key_layout :
    ∀ (pos : Int × Int) (d : MDimension),
      indexKey pos d =
          le32 (toU32 pos.1) ++ le32 (toU32 pos.2) ++
            (if (DimensionID d).1 = 0 then [] else le32 (DimensionID d).1) ∧
        (indexKey pos d).length = (if (DimensionID d).1 = 0 then 8 else 12) ∧
        (DimensionID MDimension.overworldLegacy).1 = 0 := by
  intro pos d
  cases d <;> exact ⟨rfl, rfl, rfl⟩

/-! ## Association-list lemmas used for Go map reasoning -/

theorem lookup_eq_none_of_forall {α β : Type} [BEq α] [LawfulBEq α]
    (l : List (α × β)) (a : α) (h : ∀ p ∈ l, p.1 ≠ a) : l.lookup a = none := by
  induction l with
  | nil => rfl
  | cons p t ih =>
    obtain ⟨k, b⟩ := p
    rw [List.lookup_cons]
    have hne : k ≠ a := h (k, b) (List.mem_cons_self _ _)
    have : (a == k) = false := by
      simp [beq_iff_eq]
      exact fun he => hne he.symm
    rw [this]
    exact ih fun q hq => h q (List.mem_cons_of_mem _ hq)

theorem lookup_none_iff_forall {α β : Type} [BEq α] [LawfulBEq α]
    (l : List (α × β)) (a : α) : l.lookup a = none ↔ ∀ p ∈ l, p.1 ≠ a := by
  induction l with
  | nil => simp
  | cons q t ih =>
    obtain ⟨k, b⟩ := q
    rw [List.lookup_cons]
    by_cases hak : a = k
    · subst hak
      constructor
      · intro h; simp at h
      · intro h
        exact absurd rfl (h (a, b) (List.mem_cons_self _ _))
    · have hb : (a == k) = false := beq_eq_false_iff_ne.mpr hak
      rw [hb]
      simp only [List.mem_cons]
      constructor
      · intro h p hp
        rcases hp with rfl | hm
        · exact fun he => hak he.symm
        · exact ih.mp h p hm
      · intro h
        exact ih.mpr fun p hp => h p (Or.inr hp)

theorem lookup_eq_some_of_mem_nodup {α β : Type} [BEq α] [LawfulBEq α]
    (l : List (α × β)) (a : α) (b : β)
    (hnd : (l.map Prod.fst).Nodup) (hmem : (a, b) ∈ l) : l.lookup a = some b := by
  induction l with
  | nil => cases hmem
  | cons p t ih =>
    obtain ⟨k, c⟩ := p
    rw [List.lookup_cons]
    rcases List.mem_cons.mp hmem with he | hmem2
    · cases he
      simp
    · have hk : k ∉ t.map Prod.fst := by
        simp only [List.map_cons, List.nodup_cons] at hnd
        exact hnd.1
      have : (a == k) = false := by
        simp only [beq_eq_false_iff_ne, ne_eq]
        intro rfl2
        exact hk (List.mem_map.mpr ⟨(a, b), hmem2, by rw [rfl2]⟩)
      rw [this]
      simp only [List.map_cons, List.nodup_cons] at hnd
      exact ih hnd.2 hmem2

theorem find?_eq_of_first {α : Type} (p : α → Bool) :
    ∀ (l : List α) (j : Nat) (x : α), l[j]? = some x → p x = true →
      (∀ k s, k < j → l[k]? = some s → p s = false) → l.find? p = some x := by
  intro l
  induction l with
  | nil => intro j x hj; simp at hj
  | cons y t ih =>
    intro j x hj hx hbefore
    cases j with
    | zero =>
      simp at hj
      subst hj
      simp [List.find?_cons, hx]
    | succ k =>
      have hy : p y = false := hbefore 0 y (Nat.succ_pos k) (by simp)
      simp [List.find?_cons, hy]
      exact ih k x (by simpa using hj) hx
        fun m s hm hs => hbefore (m + 1) s (Nat.succ_lt_succ hm) (by simpa using hs)

theorem mem_enumFrom_of_getElem? {α : Type} :
    ∀ (l : List α) (off j : Nat) (x : α), l[j]? = some x → (off + j, x) ∈ List.enumFrom off l := by
  intro l
  induction l with
  | nil => intro off j x hj; simp at hj
  | cons y t ih =>
    intro off j x hj
    cases j with
    | zero =>
      simp at hj
      subst hj
      rw [show List.enumFrom off (y :: t) = (off, y) :: List.enumFrom (off + 1) t from rfl]
      rw [show off + 0 = off from by omega]
      exact List.mem_cons_self _ _
    | succ k =>
      have hmem := ih (off + 1) k x (by simpa using hj)
      rw [show List.enumFrom off (y :: t) = (off, y) :: List.enumFrom (off + 1) t from rfl]
      refine List.mem_cons_of_mem _ ?_
      rw [show off + (k + 1) = off + 1 + k from by omega]
      exact hmem

theorem mem_of_mem_enumFrom {α : Type} :
    ∀ (l : List α) (off : Nat) (p : Nat × α), p ∈ List.enumFrom off l → p.2 ∈ l := by
  intro l
  induction l with
  | nil => intro off p hp; cases hp
  | cons y t ih =>
    intro off p hp
    rcases List.mem_cons.mp hp with rfl | hmem
    · exact List.mem_cons_self _ _
    · exact List.mem_cons_of_mem _ (ih (off + 1) p hmem)

/-! ## The block-state registry (`server/world/block_state.go`)

`registerBlockState` panics on duplicate states; a panic is modelled as
`none`. RIDs are assigned positionally (`rid := uint32(len(blocks))`), the
default property set for a name is recorded on first sight, and the lookup
function installed as `chunk.StateToRuntimeID` falls back to that default
set on a miss. -/

structure MBlockState where
  name : String
  properties : Option PropMap
deriving DecidableEq

/-- The `stateHash` of a block state: its name paired with the canonical
property hash. -/
def stateKeyOf (s : MBlockState) : String × List Nat :=
  (s.name, hashPropertiesO s.properties)

structure Registry where
  blocks : List MBlockState
  stateRuntimeIDs : List ((String × List Nat) × Nat)
  blockProperties : List (String × Option PropMap)
deriving DecidableEq

def emptyRegistry : Registry := ⟨[], [], []⟩

/-- `registerBlockState` (block_state.go:134): panic (`none`) if the state
hash is taken; otherwise record the default property set for the name
(first sight only) and append the state with `rid = len(blocks)`. -/
def registerBlockState (r : Registry) (s : MBlockState) : Option Registry :=
  if (r.stateRuntimeIDs.lookup (stateKeyOf s)).isSome then none
  else
    some
      { blocks := r.blocks ++ [s]
        stateRuntimeIDs := r.stateRuntimeIDs ++ [(stateKeyOf s, r.blocks.length)]
        blockProperties :=
          if (r.blockProperties.lookup s.name).isSome then r.blockProperties
          else r.blockProperties ++ [(s.name, s.properties)] }

def registerAllFrom : Registry → List MBlockState → Option Registry
  | r, [] => some r
  | r, s :: t =>
    match registerBlockState r s with
    | none => none
    | some r2 => registerAllFrom r2 t

/-- Registering a list of states into the empty registry, as
`LoadBlockStates` does with the embedded catalogue. -/
def registerAll (ss : List MBlockState) : Option Registry :=
  registerAllFrom emptyRegistry ss

/-- `chunk.StateToRuntimeID` as installed in block_state.go:77-83: exact
lookup by `(name, canonical hash)` first; on a miss, retry with the default
property set recorded for the name (`blockProperties[name]`, the nil map
when the name is unknown). The Go zero values `(0, false)` are returned when
both lookups miss. -/
def StateToRuntimeID (r : Registry) (name : String) (props : Option PropMap) : Nat × Bool :=
  match r.stateRuntimeIDs.lookup (name, hashPropertiesO props) with
  | some rid => (rid, true)
  | none =>
    match r.stateRuntimeIDs.lookup (name, hashPropertiesO (r.blockProperties.lookup name).join) with
    | some rid => (rid, true)
    | none => (0, false)

/-- Successful registration starting from `r` appends the states in order,
assigning consecutive runtime IDs from `len(r.blocks)`, and records each
name's default property set on first sight. -/
theorem registerAllFrom_char :
    ∀ (ss : List MBlockState) (r r' : Registry), registerAllFrom r ss = some r' →
      r'.stateRuntimeIDs =
          r.stateRuntimeIDs ++
            (List.enumFrom r.blocks.length ss).map (fun p => (stateKeyOf p.2, p.1)) ∧
        r'.blocks.length = r.blocks.length + ss.length ∧
        ∀ name : String,
          r'.blockProperties.lookup name =
            (r.blockProperties.lookup name).or
              ((ss.find? fun s => s.name == name).map MBlockState.properties) := by
  intro ss
  induction ss with
  | nil =>
    intro r r' h
    injection h with h
    subst h
    refine ⟨by simp, by simp, fun name => by simp [Option.or_none]⟩
  | cons s t ih =>
    intro r r' h
    simp only [registerAllFrom] at h
    by_cases hc : (r.stateRuntimeIDs.lookup (stateKeyOf s)).isSome
    · simp [registerBlockState, hc] at h
    · by_cases hbps : (r.blockProperties.lookup s.name).isSome
      · simp only [registerBlockState, hc, hbps, if_true, if_false, Bool.false_eq_true] at h
        obtain ⟨hsr, hlen, hbp⟩ := ih _ _ h
        dsimp only at hsr hlen hbp
        refine ⟨?_, ?_, ?_⟩
        · rw [hsr]
          rw [show (r.blocks ++ [s]).length = r.blocks.length + 1 from by simp]
          rw [show List.enumFrom r.blocks.length (s :: t) =
                (r.blocks.length, s) :: List.enumFrom (r.blocks.length + 1) t from rfl]
          simp [List.append_assoc]
        · rw [hlen]
          simp
          omega
        · intro name
          rw [hbp name]
          by_cases hn : s.name = name
          · rw [show List.find? (fun s2 => s2.name == name) (s :: t) = some s from
              List.find?_cons_of_pos _ (beq_iff_eq.mpr hn)]
            have hrs : (r.blockProperties.lookup name).isSome = true := by rw [← hn]; exact hbps
            rw [Option.or_of_isSome hrs, Option.or_of_isSome hrs]
          · rw [show List.find? (fun s2 => s2.name == name) (s :: t) =
                List.find? (fun s2 => s2.name == name) t from
              List.find?_cons_of_neg _ (by simp only [beq_iff_eq]; exact hn)]
      · simp only [registerBlockState, hc, hbps, if_true, if_false, Bool.false_eq_true] at h
        obtain ⟨hsr, hlen, hbp⟩ := ih _ _ h
        dsimp only at hsr hlen hbp
        refine ⟨?_, ?_, ?_⟩
        · rw [hsr]
          rw [show (r.blocks ++ [s]).length = r.blocks.length + 1 from by simp]
          rw [show List.enumFrom r.blocks.length (s :: t) =
                (r.blocks.length, s) :: List.enumFrom (r.blocks.length + 1) t from rfl]
          simp [List.append_assoc]
        · rw [hlen]
          simp
          omega
        · intro name
          rw [hbp name, List.lookup_append]
          by_cases hn : s.name = name
          · rw [show List.find? (fun s2 => s2.name == name) (s :: t) = some s from
              List.find?_cons_of_pos _ (beq_iff_eq.mpr hn)]
            have hnone : r.blockProperties.lookup name = none := by
              rw [← hn]
              exact Option.not_isSome_iff_eq_none.mp hbps
            rw [hnone, Option.none_or, Option.none_or]
            rw [show List.lookup name [(s.name, s.properties)] = some s.properties from by
              simp [List.lookup_cons, beq_iff_eq.mpr hn.symm]]
            rw [Option.or_some]
            rfl
          · rw [show List.find? (fun s2 => s2.name == name) (s :: t) =
                List.find? (fun s2 => s2.name == name) t from
              List.find?_cons_of_neg _ (by simp only [beq_iff_eq]; exact hn)]
            rw [show List.lookup name [(s.name, s.properties)] = none from by
              refine lookup_eq_none_of_forall _ _ ?_
              intro p hp
              rcases List.mem_cons.mp hp with rfl | hfalse
              · exact fun he => hn he
              · cases hfalse]
            rw [Option.or_none]

/-- Successful registration keeps the state-hash keys of the runtime-ID map
duplicate-free (duplicates panic). -/
theorem registerAllFrom_nodup :
    ∀ (ss : List MBlockState) (r r' : Registry), registerAllFrom r ss = some r' →
      (r.stateRuntimeIDs.map Prod.fst).Nodup → (r'.stateRuntimeIDs.map Prod.fst).Nodup := by
  intro ss
  induction ss with
  | nil =>
    intro r r' h hnd
    injection h with h
    subst h
    exact hnd
  | cons s t ih =>
    intro r r' h hnd
    simp only [registerAllFrom] at h
    by_cases hc : (r.stateRuntimeIDs.lookup (stateKeyOf s)).isSome
    · simp [registerBlockState, hc] at h
    · simp only [registerBlockState, hc, if_false, Bool.false_eq_true] at h
      refine ih _ _ h ?_
      have hnone : r.stateRuntimeIDs.lookup (stateKeyOf s) = none :=
        Option.not_isSome_iff_eq_none.mp hc
      have hnotmem : stateKeyOf s ∉ r.stateRuntimeIDs.map Prod.fst := by
        intro hmem
        obtain ⟨p, hp, hpe⟩ := List.mem_map.mp hmem
        exact (lookup_none_iff_forall _ _).mp hnone p hp hpe
      simp [List.nodup_append, hnd, hnotmem]

/-- C6: properties of the state-to-runtime-ID lookup over any successfully
registered state list: (a) a direct hit on `(name, hash)` returns that
runtime ID; (b) on a direct miss the lookup falls back to the default
property set for the name — the properties of the *first* state registered
under that name — and returns that state's runtime ID; (c) if no state with
the name was registered, the result is `(0, false)`; (d) `found = false`
implies the direct lookup missed. -/
theorem c6_state_to_runtime_id (ss : List MBlockState) (reg : Registry)
    (hreg : registerAll ss = some reg) :
    (∀ (name : String) (props : Option PropMap) (rid : Nat),
        reg.stateRuntimeIDs.lookup (name, hashPropertiesO props) = some rid →
          StateToRuntimeID reg name props = (rid, true)) ∧
      (∀ (name : String) (props : Option PropMap) (j : Nat) (s0 : MBlockState),
          reg.stateRuntimeIDs.lookup (name, hashPropertiesO props) = none →
            ss[j]? = some s0 → s0.name = name →
            (∀ k s, k < j → ss[k]? = some s → s.name ≠ name) →
            StateToRuntimeID reg name props = (j, true)) ∧
      (∀ (name : String) (props : Option PropMap),
          (∀ s ∈ ss, s.name ≠ name) → StateToRuntimeID reg name props = (0, false)) ∧
      (∀ (name : String) (props : Option PropMap),
          (StateToRuntimeID reg name props).2 = false →
            reg.stateRuntimeIDs.lookup (name, hashPropertiesO props) = none) := by
  obtain ⟨hsr, hlen, hbp⟩ := registerAllFrom_char ss emptyRegistry reg hreg
  have hnd : (reg.stateRuntimeIDs.map Prod.fst).Nodup :=
    registerAllFrom_nodup ss emptyRegistry reg hreg (by simp [emptyRegistry])
  have hsr0 : reg.stateRuntimeIDs =
      (List.enumFrom 0 ss).map (fun p => (stateKeyOf p.2, p.1)) := by
    simpa [emptyRegistry] using hsr
  have hbp0 : ∀ name : String,
      reg.blockProperties.lookup name =
        (ss.find? fun s => s.name == name).map MBlockState.properties := by
    intro name
    simpa [emptyRegistry] using hbp name
  refine ⟨?_, ?_, ?_, ?_⟩
  · intro name props rid hdir
    simp only [StateToRuntimeID, hdir]
  · intro name props j s0 hdir hj hname hbefore
    have hfind : ss.find? (fun s => s.name == name) = some s0 :=
      find?_eq_of_first _ ss j s0 hj (beq_iff_eq.mpr hname)
        fun k s hk hs => beq_eq_false_iff_ne.mpr (hbefore k s hk hs)
    have hdefault : reg.blockProperties.lookup name = some s0.properties := by
      rw [hbp0 name, hfind]
      rfl
    have hmem : (stateKeyOf s0, j) ∈ reg.stateRuntimeIDs := by
      rw [hsr0]
      refine List.mem_map.mpr ⟨(j, s0), ?_, rfl⟩
      have := mem_enumFrom_of_getElem? ss 0 j s0 hj
      simpa using this
    have hlook : reg.stateRuntimeIDs.lookup (stateKeyOf s0) = some j :=
      lookup_eq_some_of_mem_nodup _ _ _ hnd hmem
    have hkey : stateKeyOf s0 = (name, hashPropertiesO (reg.blockProperties.lookup name).join) := by
      rw [hdefault]
      simp [stateKeyOf, hname, Option.join]
    simp only [StateToRuntimeID, hdir]
    rw [← hkey, hlook]
  · intro name props hno
    have hdir : ∀ h : List Nat, reg.stateRuntimeIDs.lookup (name, h) = none := by
      intro hsh
      refine lookup_eq_none_of_forall _ _ ?_
      intro p hp he
      rw [hsr0] at hp
      obtain ⟨q, hq, hqe⟩ := List.mem_map.mp hp
      have hqs : q.2 ∈ ss := mem_of_mem_enumFrom ss 0 q hq
      have h1 : stateKeyOf q.2 = (name, hsh) := by
        rw [show stateKeyOf q.2 = ((stateKeyOf q.2, q.1) : (String × List Nat) × Nat).1 from rfl, hqe, he]
      have h2 : q.2.name = name := congrArg Prod.fst h1
      exact hno q.2 hqs h2
    have hfind : ss.find? (fun s => s.name == name) = none :=
      List.find?_eq_none.mpr fun s hs => by
        simp only [beq_iff_eq]
        exact hno s hs
    have hdefault : reg.blockProperties.lookup name = none := by
      rw [hbp0 name, hfind]
      rfl
    simp only [StateToRuntimeID, hdir, hdefault]
  · intro name props hfalse
    cases hdir : reg.stateRuntimeIDs.lookup (name, hashPropertiesO props) with
    | none => rfl
    | some rid =>
      simp only [StateToRuntimeID, hdir] at hfalse
      simp at hfalse

/-- A small concrete catalogue for exercising the registry lookups. -/
def c6States : List MBlockState :=
  [⟨"custom:block", some [("color", PropValue.pstr "red")]⟩,
   ⟨"custom:block", some [("color", PropValue.pstr "blue")]⟩]

/-- Witness for `c6_state_to_runtime_id`: looking up `custom:block` with an
unregistered property set falls back to the default (first-registered)
property set and returns runtime ID 0. -/
theorem c6_state_to_runtime_id_witness :
    StateToRuntimeID ((registerAll c6States).getD emptyRegistry) ("custom:block")
        (some [("color", PropValue.pstr "green")]) = (0, true) :=
  (c6_state_to_runtime_id c6States ((registerAll c6States).getD emptyRegistry)
        (by decide)).2.1 ("custom:block") (some [("color", PropValue.pstr "green")]) 0
    ⟨"custom:block", some [("color", PropValue.pstr "red")]⟩ (by decide) (by decide) (by decide)
    (fun k s hk _ => absurd hk (Nat.not_lt_zero k))

/-! ## The key/value store (leveldb)

The store itself is external; it is modelled as an association list with
exact byte keys. `Get` misses are `none`; where a claim depends on *store
failures*, the store is an oracle (`GetOracle`, `PutOracle`) so theorems
quantify over every possible failure behaviour. -/

abbrev MKey := List Nat

abbrev MVal := List Nat

abbrev Store := List (MKey × MVal)

def storeGet : Store → MKey → Option MVal
  | [], _ => none
  | (k0, v0) :: t, k => if k0 = k then some v0 else storeGet t k

def storePut : Store → MKey → MVal → Store
  | [], k, v => [(k, v)]
  | (k0, v0) :: t, k, v => if k0 = k then (k, v) :: t else (k0, v0) :: storePut t k v

def storeDel : Store → MKey → Store
  | [], _ => []
  | (k0, v0) :: t, k => if k0 = k then storeDel t k else (k0, v0) :: storeDel t k

theorem storeGet_put_self (s : Store) (k : MKey) (v : MVal) :
    storeGet (storePut s k v) k = some v := by
  induction s with
  | nil => simp [storePut, storeGet]
  | cons p t ih =>
    obtain ⟨k0, v0⟩ := p
    by_cases h : k0 = k
    · simp [storePut, storeGet, h]
    · simp [storePut, storeGet, h, ih]

theorem storeGet_put_ne (s : Store) (k k' : MKey) (v : MVal) (h : k' ≠ k) :
    storeGet (storePut s k v) k' = storeGet s k' := by
  have hne : ¬k = k' := fun he => h he.symm
  induction s with
  | nil => simp [storePut, storeGet, hne]
  | cons p t ih =>
    obtain ⟨k0, v0⟩ := p
    by_cases h0 : k0 = k
    · subst h0
      simp [storePut, storeGet, hne]
    · rw [show storePut ((k0, v0) :: t) k v = (k0, v0) :: storePut t k v from by
        simp [storePut, h0]]
      by_cases h1 : k0 = k'
      · simp [storeGet, h1]
      · simp [storeGet, h1, ih]

theorem storeGet_del_self (s : Store) (k : MKey) :
    storeGet (storeDel s k) k = none := by
  induction s with
  | nil => rfl
  | cons p t ih =>
    obtain ⟨k0, v0⟩ := p
    by_cases h : k0 = k
    · simp [storeDel, h, ih]
    · simp [storeDel, storeGet, h, ih]

theorem storeGet_del_ne (s : Store) (k k' : MKey) (h : k' ≠ k) :
    storeGet (storeDel s k) k' = storeGet s k' := by
  have hne : ¬k = k' := fun he => h he.symm
  induction s with
  | nil => rfl
  | cons p t ih =>
    obtain ⟨k0, v0⟩ := p
    by_cases h0 : k0 = k
    · subst h0
      simp [storeDel, storeGet, hne, ih]
    · by_cases h1 : k0 = k'
      · simp [storeDel, storeGet, h0, h1, h]
      · simp [storeDel, storeGet, h0, h1, ih]

/-! ## `SaveChunk` (`mcdb/db.go:194-210`)

Every `db.ldb.Put` in `SaveChunk` is written as `_ = db.ldb.Put(..)`: the
returned error is assigned to the blank identifier. A `PutOracle` decides
whether a given write fails; a failed write leaves the store unchanged and
produces the error that the code then discards. -/

abbrev PutOracle := MKey → MVal → Option Unit

/-- A `Put` against the store: on oracle-decided failure the error is
reported and the store is unchanged. -/
def storePutO (o : PutOracle) (s : Store) (k : MKey) (v : MVal) : Store × Option Unit :=
  match o k v with
  | some e => (s, some e)
  | none => (storePut s k v, none)

/-- `chunk.SerialisedData`: the encoded sub-chunk byte strings and the
encoded biome storages produced by `chunk.Encode`. -/
structure MSerialisedData where
  subChunks : List (List Nat)
  biomes : List Nat
deriving DecidableEq

/-- `byte(i + (c.Range()[0]>>4))`: the Y-index byte of sub-chunk slot `i`. -/
def subYByte (rmin : Int) (i : Nat) : Nat :=
  (((i : Int) + rmin.fdiv 16).emod 256).toNat

def saveSubChunksLoop (o : PutOracle) (key : List Nat) (rmin : Int) :
    Store → Nat → List (List Nat) → Store
  | s, _, [] => s
  | s, i, sub :: t =>
    saveSubChunksLoop o key rmin (storePutO o s (key ++ [keySubChunkData, subYByte rmin i]) sub).1 (i + 1) t

/-- `SaveChunk`: writes the version byte, the 512-byte zero heightmap with
the biome storages, the finalisation word `2`, and each sub-chunk — taking
only the store effect (`.1`) of every `Put`, exactly as the source assigns
each `Put`'s error to `_` — and finally returns `nil`. -/
def saveChunk (o : PutOracle) (s : Store) (pos : Int × Int) (d : MDimension)
    (data : MSerialisedData) (rmin : Int) : Store × Except Unit Unit :=
  let key := indexKey pos d
  let s1 := (storePutO o s (key ++ [keyVersion]) [chunkVersion]).1
  let s2 := (storePutO o s1 (key ++ [key3DData]) (List.replicate 512 0 ++ data.biomes)).1
  let s3 := (storePutO o s2 (key ++ [keyFinalisation]) [2, 0, 0, 0]).1
  let s4 := saveSubChunksLoop o key rmin s3 0 data.subChunks
  (s4, Except.ok ())

/-- A store in which every write fails. -/
def failingPut : PutOracle := fun _ _ => some ()

/-- C2, counterexample: with a store whose every `Put` fails, `SaveChunk`
still returns `nil` — the version-byte write fails and the error is
discarded. -/
theorem c2_save_chunk_swallows_error_counterexample :
    (saveChunk failingPut [] (0, 0) MDimension.overworld ⟨[[1]], [2]⟩ (-64)).2 = Except.ok () ∧
      failingPut (indexKey (0, 0) MDimension.overworld ++ [keyVersion]) [chunkVersion] = some () :=
  ⟨rfl, rfl⟩

/-- C2 (amended): `SaveChunk` returns `nil` unconditionally; every store
error produced by its writes (version byte, heightmap+biome blob,
finalisation word, sub-chunk slots) is discarded. -/
theorem c2_save_chunk_always_ok (o : PutOracle) (s : Store) (pos : Int × Int)
    (d : MDimension) (data : MSerialisedData) (rmin : Int) :
    (saveChunk o s pos d data rmin).2 = Except.ok () := rfl

/-! ## `LoadChunk` (`mcdb/db.go:153-190`)

Reads are modelled by a `GetOracle` that can return a value, a `NotFound`
miss, or a store failure. `DiskDecode` lives in the chunk codec; here it is
a parameter (`ddec`). -/

inductive GetRes where
  | found (v : List Nat)
  | notFound
  | fail
deriving DecidableEq

abbrev GetOracle := MKey → GetRes

def loadSubChunks (g : GetOracle) (key : List Nat) (rmin : Int) :
    Nat → Nat → Except Unit (List (List Nat))
  | 0, _ => .ok []
  | rem + 1, i =>
    match g (key ++ [keySubChunkData, subYByte rmin i]) with
    | .fail => .error ()
    | .notFound => (loadSubChunks g key rmin rem (i + 1)).map (fun l => [] :: l)
    | .found v => (loadSubChunks g key rmin rem (i + 1)).map (fun l => v :: l)

/-- The tail of `LoadChunk` after a version key was found: read the 3D
biome blob (strip the 512-byte heightmap when longer than 512), read each
sub-chunk (missing slots are empty), then decode. All failure returns from
this point carry `exists = true`. -/
def loadChunkDecode {γ : Type} (ddec : MSerialisedData → Except Unit γ)
    (subs : List (List Nat)) (biomes : List Nat) : Option γ × Bool × Option Unit :=
  match ddec ⟨subs, biomes⟩ with
  | .ok c => (some c, true, none)
  | .error _ => (none, true, some ())

def loadChunkAfterBiomes {γ : Type} (g : GetOracle) (ddec : MSerialisedData → Except Unit γ)
    (key : List Nat) (d : MDimension) (biomes0 : List Nat) : Option γ × Bool × Option Unit :=
  match loadSubChunks g key (dimRange d).1 (subChunkCount d) 0 with
  | .error _ => (none, true, some ())
  | .ok subs =>
    loadChunkDecode ddec subs (if biomes0.length > 512 then biomes0.drop 512 else biomes0)

def loadChunkRest {γ : Type} (g : GetOracle) (ddec : MSerialisedData → Except Unit γ)
    (key : List Nat) (d : MDimension) : Option γ × Bool × Option Unit :=
  match g (key ++ [key3DData]) with
  | .fail => (none, true, some ())
  | .notFound => loadChunkAfterBiomes g ddec key d []
  | .found v => loadChunkAfterBiomes g ddec key d v

/-- `LoadChunk`: try the current version key; on `NotFound` try the legacy
version key, and if *that* read returns any error — `NotFound` or a store
failure alike — return `(nil, false, nil)`. A failure on the current
version key is returned as an error with `exists = true`. -/
def loadChunk {γ : Type} (g : GetOracle) (ddec : MSerialisedData → Except Unit γ)
    (pos : Int × Int) (d : MDimension) : Option γ × Bool × Option Unit :=
  let key := indexKey pos d
  match g (key ++ [keyVersion]) with
  | .found _ => loadChunkRest g ddec key d
  | .fail => (none, true, some ())
  | .notFound =>
    match g (key ++ [keyVersionOld]) with
    | .found _ => loadChunkRest g ddec key d
    | _ => (none, false, none)

theorem loadChunkDecode_exists {γ : Type} (ddec : MSerialisedData → Except Unit γ)
    (subs : List (List Nat)) (biomes : List Nat) :
    (loadChunkDecode ddec subs biomes).2.1 = true := by
  unfold loadChunkDecode
  cases ddec ⟨subs, biomes⟩ <;> rfl

theorem loadChunkAfterBiomes_exists {γ : Type} (g : GetOracle)
    (ddec : MSerialisedData → Except Unit γ) (key : List Nat) (d : MDimension)
    (biomes0 : List Nat) : (loadChunkAfterBiomes g ddec key d biomes0).2.1 = true := by
  unfold loadChunkAfterBiomes
  cases loadSubChunks g key (dimRange d).1 (subChunkCount d) 0 with
  | error e => rfl
  | ok subs => exact loadChunkDecode_exists ddec subs _

theorem loadChunkRest_exists {γ : Type} (g : GetOracle)
    (ddec : MSerialisedData → Except Unit γ) (key : List Nat) (d : MDimension) :
    (loadChunkRest g ddec key d).2.1 = true := by
  unfold loadChunkRest
  cases g (key ++ [key3DData]) with
  | found v => exact loadChunkAfterBiomes_exists g ddec key d v
  | notFound => exact loadChunkAfterBiomes_exists g ddec key d []
  | fail => rfl

/-- C3 (amended): (a) a store failure reading the *current* version key is
propagated (`exists = true`, non-nil error); (b) when the current key is
`NotFound`, any non-`found` outcome on the *legacy* key — `NotFound` or a
store failure alike — yields `(nil, false, nil)`: the legacy-key store
failure is swallowed, not propagated; (c) `exists = false ∧ err = nil`
holds exactly when the current key read is `NotFound` and the legacy key
read returns anything but a value. -/
theorem c3_load_chunk_version_keys (γ : Type) :
    (∀ (g : GetOracle) (ddec : MSerialisedData → Except Unit γ) (pos : Int × Int) (d : MDimension),
        g (indexKey pos d ++ [keyVersion]) = GetRes.fail →
          loadChunk g ddec pos d = (none, true, some ())) ∧
      (∀ (g : GetOracle) (ddec : MSerialisedData → Except Unit γ) (pos : Int × Int) (d : MDimension),
          g (indexKey pos d ++ [keyVersion]) = GetRes.notFound →
            (∀ v, g (indexKey pos d ++ [keyVersionOld]) ≠ GetRes.found v) →
            loadChunk g ddec pos d = (none, false, none)) ∧
      (∀ (g : GetOracle) (ddec : MSerialisedData → Except Unit γ) (pos : Int × Int) (d : MDimension),
          ((loadChunk g ddec pos d).2.1 = false ∧ (loadChunk g ddec pos d).2.2 = none) ↔
            (g (indexKey pos d ++ [keyVersion]) = GetRes.notFound ∧
              ∀ v, g (indexKey pos d ++ [keyVersionOld]) ≠ GetRes.found v)) := by
  refine ⟨?_, ?_, ?_⟩
  · intro g ddec pos d h
    simp [loadChunk, h]
  · intro g ddec pos d h hold
    cases h2 : g (indexKey pos d ++ [keyVersionOld]) with
    | found v => exact absurd h2 (hold v)
    | notFound => simp [loadChunk, h, h2]
    | fail => simp [loadChunk, h, h2]
  · intro g ddec pos d
    constructor
    · intro ⟨hex, herr⟩
      cases h : g (indexKey pos d ++ [keyVersion]) with
      | found v =>
        rw [show loadChunk g ddec pos d = loadChunkRest g ddec (indexKey pos d) d from by
          simp [loadChunk, h]] at hex
        rw [loadChunkRest_exists] at hex
        cases hex
      | fail =>
        rw [show loadChunk g ddec pos d = (none, true, some ()) from by simp [loadChunk, h]] at hex
        cases hex
      | notFound =>
        refine ⟨rfl, ?_⟩
        intro v hv
        rw [show loadChunk g ddec pos d = loadChunkRest g ddec (indexKey pos d) d from by
          simp [loadChunk, h, hv]] at hex
        rw [loadChunkRest_exists] at hex
        cases hex
    · intro ⟨h, hold⟩
      cases h2 : g (indexKey pos d ++ [keyVersionOld]) with
      | found v => exact absurd h2 (hold v)
      | notFound => simp [loadChunk, h, h2]
      | fail => simp [loadChunk, h, h2]

/-- A store read oracle that fails exactly on the legacy version key of
chunk (0,0) in the overworld and misses everywhere else. -/
def c3Oracle : GetOracle := fun k =>
  if k = indexKey (0, 0) MDimension.overworld ++ [keyVersionOld] then .fail else .notFound

/-- C3, counterexample: the current version key is absent and the *legacy*
version key read fails with a store error, yet `LoadChunk` returns
`(nil, exists = false, err = nil)` — the store failure is not propagated,
contradicting the claim that it would be returned as a non-nil error. -/
theorem c3_legacy_store_error_swallowed_counterexample :
    c3Oracle (indexKey (0, 0) MDimension.overworld ++ [keyVersionOld]) = GetRes.fail ∧
      loadChunk c3Oracle (fun _ => (Except.error () : Except Unit Unit)) (0, 0)
          MDimension.overworld = (none, false, none) := by
  refine ⟨by decide, by decide⟩

/-- Witness for `c3_load_chunk_version_keys`: part (a) at an always-failing
store and part (b) at an always-missing store. -/
theorem c3_load_chunk_version_keys_witness :
    loadChunk (fun _ => GetRes.fail) (fun _ => (Except.error () : Except Unit Unit)) (0, 0)
        MDimension.overworld = (none, true, some ()) ∧
      loadChunk (fun _ => GetRes.notFound) (fun _ => (Except.error () : Except Unit Unit)) (0, 0)
          MDimension.overworld = (none, false, none) :=
  ⟨(c3_load_chunk_version_keys Unit).1 _ _ _ _ rfl,
    (c3_load_chunk_version_keys Unit).2.1 _ _ _ _ rfl fun v h => by cases h⟩

/-! ## Paletted storages and biome decoding (`chunk` package)

`decodePalettedStorage` returns `nil, nil` — the inherit marker, modelled
as `none` with no error — when the size byte shifted right by one is
`0x7F`. Palette deserialisation (`Encoding.decodePalette`) is not among the
sources and is a function parameter. -/

inductive MEncoding where
  | disk
  | network
  | networkPersistent
deriving DecidableEq

inductive MPaletteEnc where
  | block
  | biome
deriving DecidableEq

structure MPalettedStorage where
  uint32s : List Nat
  palette : List Nat
deriving DecidableEq

/-- Modelled from the spec: `paletteSize.uint32s()` (not among the
sources) — `word_count = ceil(4096 / floor(32 / bits))`, with zero words
for `bits = 0` (§3; Go divides by zero for `bits > 32`, unreachable under
the wire format's size set). -/
def paletteUint32s (bits : Nat) : Nat :=
  if bits = 0 then 0 else (4096 + 32 / bits - 1) / (32 / bits)

/-- `Encoding.decodePalette` as an abstract parameter: given the effective
encoding, the palette encoding, and the palette size, consume bytes and
return the palette's runtime IDs plus the remaining buffer. -/
abbrev PaletteDecoder :=
  MEncoding → MPaletteEnc → Nat → List Nat → Except Unit (List Nat × List Nat)

/-- The little-endian `uint32` words read from the word section. -/
def toU32Words : List Nat → List Nat
  | b0 :: b1 :: b2 :: b3 :: t =>
    (b0 % 256 + b1 % 256 * 256 + b2 % 256 * 65536 + b3 % 256 * 16777216) :: toU32Words t
  | _ => []

/-- `decodePalettedStorage`: read the size byte (flipping network to
network-persistent when the low bit is clear), return the inherit marker
for `0x7F`, read the packed words, then the palette. -/
def decodePalettedStorage (dp : PaletteDecoder) (e : MEncoding) (pe : MPaletteEnc)
    (buf : List Nat) : Except Unit (Option MPalettedStorage × List Nat) :=
  match buf with
  | [] => .error ()
  | b :: rest =>
    let e2 := if e = MEncoding.network ∧ b % 2 ≠ 1 then MEncoding.networkPersistent else e
    let bits := b / 2
    if bits = 0x7f then .ok (none, rest)
    else
      let byteCount := paletteUint32s bits * 4
      if rest.length < byteCount then .error ()
      else
        match dp e2 pe bits (rest.drop byteCount) with
        | .error er => .error er
        | .ok (p, rest2) => .ok (some ⟨toU32Words (rest.take byteCount), p⟩, rest2)

/-- The loop body of `decodeBiomes` (and of the network biome loop):
decode `n` biome storages starting at position `i`, resolving the inherit
marker against `last` on the fly; a marker at position 0 is an error. The
list entries are the pointers the Go code stores into `c.biomes`. -/
def decodeBiomesAux (dp : PaletteDecoder) (e : MEncoding) :
    Option MPalettedStorage → Nat → Nat → List Nat →
      Except Unit (List (Option MPalettedStorage) × List Nat)
  | _, _, 0, buf => .ok ([], buf)
  | last, i, n + 1, buf =>
    match decodePalettedStorage dp e MPaletteEnc.biome buf with
    | .error er => .error er
    | .ok (b, rest) =>
      if i = 0 ∧ b = none then .error ()
      else
        let b2 := match b with
                  | none => last
                  | some st => some st
        match decodeBiomesAux dp e b2 (i + 1) n rest with
        | .error er => .error er
        | .ok (l, rest2) => .ok (b2 :: l, rest2)

/-- `decodeBiomes`: an empty buffer leaves `c.biomes` as allocated by `New`
(`init`); otherwise the loop fills all `len(c.sub)` slots. -/
def decodeBiomes (dp : PaletteDecoder) (e : MEncoding)
    (init : List (Option MPalettedStorage)) (buf : List Nat) :
    Except Unit (List (Option MPalettedStorage)) :=
  if buf = [] then .ok init
  else (decodeBiomesAux dp e none 0 init.length buf).map Prod.fst

/-- Plain sequential decoding of `n` paletted storages, keeping inherit
markers as `none`. -/
def decodeStoragesRaw (dp : PaletteDecoder) (e : MEncoding) (pe : MPaletteEnc) :
    Nat → List Nat → Except Unit (List (Option MPalettedStorage) × List Nat)
  | 0, buf => .ok ([], buf)
  | n + 1, buf =>
    match decodePalettedStorage dp e pe buf with
    | .error er => .error er
    | .ok (b, rest) =>
      match decodeStoragesRaw dp e pe n rest with
      | .error er => .error er
      | .ok (l, rest2) => .ok (b :: l, rest2)

/-- Follows the spec's words (§4.1 step 1, §4.2, S2): resolve the inherit
markers of a decoded storage sequence — a marker as the *first* storage is
an error (`InvalidPaletteReference`); every later marker stands for the
most recently decoded non-inherit storage (`last`). -/
def resolveInherit : Option MPalettedStorage → Bool → List (Option MPalettedStorage) →
    Except Unit (List (Option MPalettedStorage))
  | _, _, [] => .ok []
  | last, first, none :: t =>
    if first then .error ()
    else (resolveInherit last false t).map (fun l => last :: l)
  | _, _, some st :: t => (resolveInherit (some st) false t).map (fun l => some st :: l)

/-- The interleaved biome loop equals raw decoding followed by inherit
resolution. -/
theorem decodeBiomesAux_eq (dp : PaletteDecoder) (e : MEncoding) :
    ∀ (n : Nat) (last : Option MPalettedStorage) (i : Nat) (buf : List Nat),
      decodeBiomesAux dp e last i n buf =
        (decodeStoragesRaw dp e MPaletteEnc.biome n buf).bind
          (fun pr => (resolveInherit last (i == 0) pr.1).map (fun l => (l, pr.2))) := by
  intro n
  induction n with
  | zero => intro last i buf; rfl
  | succ n ih =>
    intro last i buf
    rw [show decodeBiomesAux dp e last i (n + 1) buf =
        (match decodePalettedStorage dp e MPaletteEnc.biome buf with
         | .error er => .error er
         | .ok (b, rest) =>
           if i = 0 ∧ b = none then .error ()
           else
             let b2 := match b with
                       | none => last
                       | some st => some st
             match decodeBiomesAux dp e b2 (i + 1) n rest with
             | .error er => .error er
             | .ok (l, rest2) => .ok (b2 :: l, rest2)) from rfl]
    rw [show decodeStoragesRaw dp e MPaletteEnc.biome (n + 1) buf =
        (match decodePalettedStorage dp e MPaletteEnc.biome buf with
         | .error er => .error er
         | .ok (b, rest) =>
           match decodeStoragesRaw dp e MPaletteEnc.biome n rest with
           | .error er => .error er
           | .ok (l, rest2) => .ok (b :: l, rest2)) from rfl]
    cases hd : decodePalettedStorage dp e MPaletteEnc.biome buf with
    | error er => rfl
    | ok pr =>
      obtain ⟨b, rest⟩ := pr
      cases b with
      | none =>
        dsimp only
        by_cases hi : i = 0
        · subst hi
          rw [if_pos (⟨rfl, rfl⟩ : (0 : Nat) = 0 ∧ (none : Option MPalettedStorage) = none)]
          cases hr : decodeStoragesRaw dp e MPaletteEnc.biome n rest with
          | error er => rfl
          | ok pr2 =>
            obtain ⟨l, rest2⟩ := pr2
            rfl
        · rw [if_neg (by simp [hi])]
          have hbeq : (i == 0) = false := by
            simp [hi]
          rw [ih last (i + 1) rest]
          cases hr : decodeStoragesRaw dp e MPaletteEnc.biome n rest with
          | error er => rfl
          | ok pr2 =>
            obtain ⟨l, rest2⟩ := pr2
            have h1 : ((i + 1 : Nat) == 0) = false := by simp
            simp only [Except.bind, h1, hbeq, Bool.false_eq_true, if_false, resolveInherit]
            cases hres : resolveInherit last false l with
            | error er => simp [hres, Except.map]
            | ok l2 => simp [hres, Except.map]
      | some st =>
        dsimp only
        rw [if_neg (by simp)]
        rw [ih (some st) (i + 1) rest]
        cases hr : decodeStoragesRaw dp e MPaletteEnc.biome n rest with
        | error er => rfl
        | ok pr2 =>
          obtain ⟨l, rest2⟩ := pr2
          have h1 : ((i + 1 : Nat) == 0) = false := by simp
          simp only [Except.bind, h1, resolveInherit]
          cases hres : resolveInherit (some st) false l with
          | error er => simp [hres, Except.map]
          | ok l2 => simp [hres, Except.map]

/-- C5: (a) a storage whose leading size byte shifted right by one equals
`0x7F` decodes to the inherit marker, consuming only that byte; (b) for a
non-empty biome buffer, `decodeBiomes` equals raw sequential decoding
followed by `resolveInherit` — so every marker after the first position
stands for the most recently decoded non-inherit storage; (c) a chunk whose
first biome storage carries the marker fails to decode. -/
theorem c5_biome_inherit :
    (∀ (dp : PaletteDecoder) (e : MEncoding) (pe : MPaletteEnc) (b : Nat) (rest : List Nat),
        b / 2 = 0x7f → decodePalettedStorage dp e pe (b :: rest) = .ok (none, rest)) ∧
      (∀ (dp : PaletteDecoder) (e : MEncoding) (init : List (Option MPalettedStorage))
          (buf : List Nat), buf ≠ [] →
          decodeBiomes dp e init buf =
            (decodeStoragesRaw dp e MPaletteEnc.biome init.length buf).bind
              (fun pr => resolveInherit none true pr.1)) ∧
      (∀ (dp : PaletteDecoder) (e : MEncoding) (init : List (Option MPalettedStorage))
          (b : Nat) (rest : List Nat), b / 2 = 0x7f → init.length ≠ 0 →
          decodeBiomes dp e init (b :: rest) = .error ()) := by
  have part1 : ∀ (dp : PaletteDecoder) (e : MEncoding) (pe : MPaletteEnc) (b : Nat)
      (rest : List Nat), b / 2 = 0x7f →
      decodePalettedStorage dp e pe (b :: rest) = .ok (none, rest) := by
    intro dp e pe b rest h
    simp [decodePalettedStorage, h]
  have part2 : ∀ (dp : PaletteDecoder) (e : MEncoding) (init : List (Option MPalettedStorage))
      (buf : List Nat), buf ≠ [] →
      decodeBiomes dp e init buf =
        (decodeStoragesRaw dp e MPaletteEnc.biome init.length buf).bind
          (fun pr => resolveInherit none true pr.1) := by
    intro dp e init buf hne
    rw [decodeBiomes, if_neg hne, decodeBiomesAux_eq]
    cases hr : decodeStoragesRaw dp e MPaletteEnc.biome init.length buf with
    | error er => rfl
    | ok pr =>
      obtain ⟨raw, rest⟩ := pr
      simp only [Except.bind]
      cases hres : resolveInherit none ((0 : Nat) == 0) raw with
      | error er =>
        rw [show resolveInherit none true raw = Except.error er from hres]
        rfl
      | ok l =>
        rw [show resolveInherit none true raw = Except.ok l from hres]
        rfl
  refine ⟨part1, part2, ?_⟩
  intro dp e init b rest hb hlen
  rw [part2 dp e init (b :: rest) (by simp)]
  cases hn : init.length with
  | zero => exact absurd hn hlen
  | succ m =>
    rw [show decodeStoragesRaw dp e MPaletteEnc.biome (m + 1) (b :: rest) =
        (match decodePalettedStorage dp e MPaletteEnc.biome (b :: rest) with
         | .error er => .error er
         | .ok (b2, rest2) =>
           match decodeStoragesRaw dp e MPaletteEnc.biome m rest2 with
           | .error er => .error er
           | .ok (l, rest3) => .ok (b2 :: l, rest3)) from rfl]
    rw [part1 dp e MPaletteEnc.biome b rest hb]
    dsimp only
    cases hr : decodeStoragesRaw dp e MPaletteEnc.biome m rest with
    | error er => rfl
    | ok pr => obtain ⟨l, rest3⟩ := pr; rfl

/-- A trivial palette decoder for exercising the codec theorems. -/
def dpConst : PaletteDecoder := fun _ _ _ buf => .ok ([0], buf)

/-- Witness for `c5_biome_inherit` at concrete inputs: byte `0xFF`
(`0xFF >> 1 = 0x7F`) decodes to the inherit marker; as the first biome
storage of a one-sub-chunk chunk it makes decoding fail; and the
decompose-then-resolve equation holds on a concrete non-empty buffer. -/
theorem c5_biome_inherit_witness :
    decodePalettedStorage dpConst MEncoding.disk MPaletteEnc.biome [0xff, 5] = .ok (none, [5]) ∧
      decodeBiomes dpConst MEncoding.disk [none] [0xff] = .error () ∧
      decodeBiomes dpConst MEncoding.disk [none] [0xfe] =
        (decodeStoragesRaw dpConst MEncoding.disk MPaletteEnc.biome 1 [0xfe]).bind
          (fun pr => resolveInherit none true pr.1) :=
  ⟨c5_biome_inherit.1 dpConst MEncoding.disk MPaletteEnc.biome 0xff [5] (by decide),
    c5_biome_inherit.2.2 dpConst MEncoding.disk [none] 0xff [] (by decide) (by decide),
    c5_biome_inherit.2.1 dpConst MEncoding.disk [none] [0xfe] (by decide)⟩

/-! ## Sub-chunk decoding and `NetworkDecode` (`chunk` package)

`decodeSubChunk` may rewrite the caller's index variable (version 9 carries
an explicit signed Y-index); the updated index is returned alongside the
sub-chunk. -/

structure MSubChunk where
  storages : List (Option MPalettedStorage)
deriving DecidableEq

/-- Go `int8(v)` of a signed integer: wrap into `-128..127`. -/
def toI8i (v : Int) : Int :=
  let m := v.emod 256
  if m < 128 then m else m - 256

/-- `decodeSubChunk`: version byte, then version 1 (single layer), or
versions 8/9 (layer-count byte, and for 9 a signed Y-index byte that
replaces the index: `uint8(int8(uIndex) - int8(c.r[0]>>4))`); any other
version byte is an error. -/
def decodeSubChunk (dp : PaletteDecoder) (e : MEncoding) (rmin : Int) (index : Nat)
    (buf : List Nat) : Except Unit (MSubChunk × Nat × List Nat) :=
  match buf with
  | [] => .error ()
  | ver :: rest =>
    if ver = 1 then
      match decodePalettedStorage dp e MPaletteEnc.block rest with
      | .error er => .error er
      | .ok (st, rest2) => .ok (⟨[st]⟩, index, rest2)
    else if ver = 8 ∨ ver = 9 then
      match rest with
      | [] => .error ()
      | cnt :: rest2 =>
        if ver = 9 then
          match rest2 with
          | [] => .error ()
          | uIndex :: rest3 =>
            let newIndex := ((toI8i (uIndex : Int) - toI8i (rmin.fdiv 16)).emod 256).toNat
            (decodeStoragesRaw dp e MPaletteEnc.block (cnt % 256) rest3).map
              fun pr => (⟨pr.1⟩, newIndex, pr.2)
        else
          (decodeStoragesRaw dp e MPaletteEnc.block (cnt % 256) rest2).map
            fun pr => (⟨pr.1⟩, index, pr.2)
    else .error ()

/-- The hashed-RID palette remap: every palette entry is replaced by the
image of the Go map subscript `ridHashLookup[v]` — the stored runtime ID,
or the map's zero value `0` when the hash is absent. -/
def remapStorage (lk : List (Nat × Nat)) (st : MPalettedStorage) : MPalettedStorage :=
  ⟨st.uint32s,
    st.palette.map fun v =>
      match lk.lookup v with
      | some rid => rid
      | none => 0⟩

/-- The remap applied to one decoded sub-chunk (`for _, storage := range
c.sub[index].storages`). A `nil` storage pointer (inherit marker in a block
storage) would make the Go loop panic; it is modelled as skipped. -/
def remapSub (lk : List (Nat × Nat)) (sub : MSubChunk) : MSubChunk :=
  ⟨sub.storages.map (Option.map (remapStorage lk))⟩

/-- Biomes of a network-decoded chunk: either the decoded paletted
storages, or — modelled from the spec (§4.2, the `SetBiome` replication of
the legacy 2D path is not among the sources) — the raw 256-byte legacy
`(x,z) → biome` array replicated over the full height. -/
inductive MBiomes where
  | storages (l : List (Option MPalettedStorage))
  | legacy (arr : List Nat)
deriving DecidableEq

structure MChunk where
  air : Nat
  sub : List (Option MSubChunk)
  biomes : MBiomes
deriving DecidableEq

/-- The block-entity NBT tail (network only): the source loops an NBT
decoder over the remaining buffer; the loop is abstracted as one function
of that buffer (`nbtTail`), returning the decoded compounds (opaquely). -/
def finishNBT (nbtTail : List Nat → Except Unit (List Nat)) (c : MChunk) (rest : List Nat) :
    Except Unit (MChunk × List Nat) :=
  if rest = [] then .ok (c, [])
  else (nbtTail rest).map fun nbts => (c, nbts)

/-- The sub-chunk loop of `NetworkDecode`: decode `count` sub-chunks, store
each at the (possibly version-9-updated) index, and — when `hashedRids` —
remap the palettes of the just-stored sub-chunk through the global
hash-to-RID table. An index outside `c.sub` panics in Go; `List.set` is a
no-op there. -/
def networkSubLoop (lk : List (Nat × Nat)) (dp : PaletteDecoder) (hashedRids : Bool)
    (rmin : Int) : Nat → Nat → List (Option MSubChunk) → List Nat →
      Except Unit (List (Option MSubChunk) × List Nat)
  | 0, _, subs, buf => .ok (subs, buf)
  | rem + 1, i, subs, buf =>
    match decodeSubChunk dp MEncoding.network rmin (i % 256) buf with
    | .error er => .error er
    | .ok (sub, idx, rest) =>
      networkSubLoop lk dp hashedRids rmin rem (i + 1)
        (subs.set idx (some (if hashedRids then remapSub lk sub else sub))) rest

/-- `NetworkDecode`: decode `count` sub-chunks (with optional hashed-RID
remapping), then either the legacy 256-byte 2D biome array (`oldBiomes`,
failing only on an already-empty buffer, short reads padded with zero) or
one biome storage per sub-chunk with inherit resolution, then the
block-entity NBT tail if bytes remain. -/
def networkDecode (lk : List (Nat × Nat)) (dp : PaletteDecoder)
    (nbtTail : List Nat → Except Unit (List Nat)) (air : Nat) (buf : List Nat) (count : Nat)
    (oldBiomes hashedRids : Bool) (r : Int × Int) : Except Unit (MChunk × List Nat) :=
  let n := ((r.2 - r.1).fdiv 16 + 1).toNat
  match networkSubLoop lk dp hashedRids r.1 count 0 (List.replicate n none) buf with
  | .error er => .error er
  | .ok (subs, rest) =>
    if oldBiomes then
      match rest with
      | [] => .error ()
      | _ =>
        finishNBT nbtTail
          ⟨air, subs, .legacy (rest.take 256 ++ List.replicate (256 - (rest.take 256).length) 0)⟩
          (rest.drop 256)
    else
      match decodeBiomesAux dp MEncoding.network none 0 n rest with
      | .error er => .error er
      | .ok (bs, rest2) => finishNBT nbtTail ⟨air, subs, .storages bs⟩ rest2

/-- A network chunk after remapping every decoded sub-chunk's palettes. -/
def remapChunkSub (lk : List (Nat × Nat)) (c : MChunk) : MChunk :=
  { c with sub := c.sub.map (Option.map (remapSub lk)) }

theorem networkSubLoop_remap (lk : List (Nat × Nat)) (dp : PaletteDecoder) (rmin : Int) :
    ∀ (rem i : Nat) (subs : List (Option MSubChunk)) (buf : List Nat),
      networkSubLoop lk dp true rmin rem i (subs.map (Option.map (remapSub lk))) buf =
        (networkSubLoop lk dp false rmin rem i subs buf).map
          (fun pr => (pr.1.map (Option.map (remapSub lk)), pr.2)) := by
  intro rem
  induction rem with
  | zero => intro i subs buf; rfl
  | succ rem ih =>
    intro i subs buf
    rw [show networkSubLoop lk dp true rmin (rem + 1) i (subs.map (Option.map (remapSub lk))) buf =
        (match decodeSubChunk dp MEncoding.network rmin (i % 256) buf with
         | .error er => .error er
         | .ok (sub, idx, rest) =>
           networkSubLoop lk dp true rmin rem (i + 1)
             ((subs.map (Option.map (remapSub lk))).set idx (some (remapSub lk sub))) rest)
        from rfl]
    rw [show networkSubLoop lk dp false rmin (rem + 1) i subs buf =
        (match decodeSubChunk dp MEncoding.network rmin (i % 256) buf with
         | .error er => .error er
         | .ok (sub, idx, rest) =>
           networkSubLoop lk dp false rmin rem (i + 1) (subs.set idx (some sub)) rest)
        from rfl]
    cases hd : decodeSubChunk dp MEncoding.network rmin (i % 256) buf with
    | error er => rfl
    | ok tr =>
      obtain ⟨sub, idx, rest⟩ := tr
      dsimp only
      rw [show (subs.map (Option.map (remapSub lk))).set idx (some (remapSub lk sub)) =
          (subs.set idx (some sub)).map (Option.map (remapSub lk)) from by
        rw [List.map_set]
        rfl]
      exact ih (i + 1) (subs.set idx (some sub)) rest

theorem finishNBT_remap (lk : List (Nat × Nat)) (nbtTail : List Nat → Except Unit (List Nat))
    (air : Nat) (subs : List (Option MSubChunk)) (B : MBiomes) (rest : List Nat) :
    finishNBT nbtTail ⟨air, subs.map (Option.map (remapSub lk)), B⟩ rest =
      (finishNBT nbtTail ⟨air, subs, B⟩ rest).map (fun pr => (remapChunkSub lk pr.1, pr.2)) := by
  unfold finishNBT
  by_cases h : rest = []
  · rw [if_pos h, if_pos h]
    rfl
  · rw [if_neg h, if_neg h]
    cases nbtTail rest with
    | error er => rfl
    | ok nbts => rfl

/-- C10: decoding a network chunk with `hashedRids = true` yields exactly
the `hashedRids = false` result with every decoded sub-chunk's palette
entries replaced by their image under the hash-to-runtime-ID table — an
absent hash maps to the Go map zero value `0` (see `remapStorage`), never
to an error. -/
theorem c10_network_decode_hashed_rids :
    (∀ (lk : List (Nat × Nat)) (dp : PaletteDecoder)
        (nbtTail : List Nat → Except Unit (List Nat)) (air : Nat) (buf : List Nat)
        (count : Nat) (oldBiomes : Bool) (r : Int × Int),
        networkDecode lk dp nbtTail air buf count oldBiomes true r =
          (networkDecode lk dp nbtTail air buf count oldBiomes false r).map
            (fun pr => (remapChunkSub lk pr.1, pr.2))) ∧
      (∀ (lk : List (Nat × Nat)) (v : Nat) (w : List Nat), lk.lookup v = none →
          remapStorage lk ⟨w, [v]⟩ = ⟨w, [0]⟩) := by
  constructor
  · intro lk dp nbtTail air buf count oldBiomes r
    unfold networkDecode
    dsimp only
    have hstart : networkSubLoop lk dp true r.1 count 0
        (List.replicate ((r.2 - r.1).fdiv 16 + 1).toNat none) buf =
        (networkSubLoop lk dp false r.1 count 0
            (List.replicate ((r.2 - r.1).fdiv 16 + 1).toNat none) buf).map
          (fun pr => (pr.1.map (Option.map (remapSub lk)), pr.2)) := by
      have hb := networkSubLoop_remap lk dp r.1 count 0
        (List.replicate ((r.2 - r.1).fdiv 16 + 1).toNat none) buf
      rw [show (List.replicate ((r.2 - r.1).fdiv 16 + 1).toNat (none : Option MSubChunk)).map
          (Option.map (remapSub lk)) = List.replicate ((r.2 - r.1).fdiv 16 + 1).toNat none
          from by simp] at hb
      exact hb
    rw [hstart]
    cases hloop : networkSubLoop lk dp false r.1 count 0
        (List.replicate ((r.2 - r.1).fdiv 16 + 1).toNat none) buf with
    | error er => rfl
    | ok pr =>
      obtain ⟨subs, rest⟩ := pr
      dsimp only [Except.map]
      by_cases hob : oldBiomes
      · rw [if_pos hob, if_pos hob]
        cases rest with
        | nil => rfl
        | cons x t =>
          dsimp only
          exact finishNBT_remap lk nbtTail air subs _ _
      · rw [if_neg hob, if_neg hob]
        cases hbio : decodeBiomesAux dp MEncoding.network none 0
            ((r.2 - r.1).fdiv 16 + 1).toNat rest with
        | error er => rfl
        | ok pr2 =>
          obtain ⟨bs, rest2⟩ := pr2
          exact finishNBT_remap lk nbtTail air subs _ _
  · intro lk v w h
    simp [remapStorage, h]

/-- Witness for `c10_network_decode_hashed_rids` at concrete inputs: a
concrete decode run, and a palette entry whose hash is absent from an empty
table mapping to runtime ID 0. -/
theorem c10_network_decode_hashed_rids_witness :
    networkDecode [] dpConst (fun _ => Except.error ()) 0 [] 0 false true ((0 : Int), (255 : Int)) =
        (networkDecode [] dpConst (fun _ => Except.error ()) 0 [] 0 false false
            ((0 : Int), (255 : Int))).map (fun pr => (remapChunkSub [] pr.1, pr.2)) ∧
      remapStorage [] ⟨[], [7]⟩ = ⟨[], [0]⟩ :=
  ⟨c10_network_decode_hashed_rids.1 [] dpConst (fun _ => Except.error ()) 0 [] 0 false
      ((0 : Int), (255 : Int)),
    c10_network_decode_hashed_rids.2 [] 7 [] rfl⟩

/-! ## Entity loading (`mcdb/db.go`, `loadEntity` / `LoadEntities`)

The NBT decoder and the entity registry are external; they are parameters.
`world.Entity` values are opaque (`Nat` stand-ins). `rand.Int63` is a
function of the running entity index. The logger only produces side
effects, which are not modelled; a log-and-skip is simply a `none`. -/

inductive MNBTVal where
  | vstr (s : String)
  | vint (i : Int)
  | vother
deriving DecidableEq

abbrev MNBT := List (String × MNBTVal)

abbrev MEntity := Nat

/-- An entry of the `world.EntityRegistry`: `saveable` is the `DecodeNBT`
of the `world.SaveableEntityType`, absent when the type does not implement
it. -/
structure MEntityType where
  saveable : Option (MNBT → Option MEntity)

/-- `db.loadEntity`: no `identifier` → log and skip; a non-string
identifier degrades to the zero value `""`; an unregistered name → log and
skip; a non-saveable type or a nil `DecodeNBT` result → skip. A missing
`UniqueID` is filled with a fresh random value before decoding. -/
def loadEntity (reg : String → Option MEntityType) (rnd : Int) (m : MNBT) : Option MEntity :=
  match m.lookup ("identifier") with
  | none => none
  | some idv =>
    let name := match idv with
                | .vstr s => s
                | _ => ""
    match reg name with
    | none => none
    | some t =>
      match t.saveable with
      | none => none
      | some decodeFn =>
        decodeFn (if (m.lookup ("UniqueID")).isSome then m
                  else m ++ [("UniqueID", MNBTVal.vint rnd)])

/-- One NBT compound decoded off a byte buffer. -/
abbrev NBTDecoder := List Nat → Except Unit (MNBT × List Nat)

/-- The legacy-stream loop `for buf.Len() != 0 { dec.Decode(&m) .. }`: a
decode error aborts the whole load. The fuel argument (always called with
`buf.length + 1`) only cuts off a decoder that consumes nothing — a state
in which the Go loop would never terminate. -/
def decodeNBTStream (dec : NBTDecoder) : Nat → List Nat → Except Unit (List MNBT)
  | _, [] => .ok []
  | 0, _ :: _ => .error ()
  | f + 1, buf =>
    match dec buf with
    | .error er => .error er
    | .ok (m, rest) => (decodeNBTStream dec f rest).map (fun l => m :: l)

/-- Running `loadEntity` over decoded compounds, skipping the `nil`
results, with `i` the index used for the random-UID source. -/
def processEntities (reg : String → Option MEntityType) (rnds : Nat → Int) :
    Nat → List MNBT → List MEntity
  | _, [] => []
  | i, m :: t =>
    match loadEntity reg (rnds i) m with
    | some e => e :: processEntities reg rnds (i + 1) t
    | none => processEntities reg rnds (i + 1) t

def digpBytes : List Nat := ("digp").data.map Char.toNat

def actorPrefixBytes : List Nat := ("actorprefix").data.map Char.toNat

/-- The 8-byte groups of a `digp` record (`for i := 0; i < len(digp); i += 8`).
A trailing group shorter than 8 bytes makes the Go slice expression panic;
it is kept whole here for totality, and theorems only use well-formed
records. -/
def groups8 : List Nat → List (List Nat)
  | [] => []
  | b0 :: b1 :: b2 :: b3 :: b4 :: b5 :: b6 :: b7 :: t =>
    [b0, b1, b2, b3, b4, b5, b6, b7] :: groups8 t
  | l => [l]

/-- The actor-storage half of `LoadEntities`: for each 8-byte UID listed in
`digp`, fetch the `actorprefix` record (a miss leaves an empty buffer,
which the decoder then rejects), decode exactly one compound, and run
`loadEntity` — decode errors abort. -/
def loadActorLoop (dec : NBTDecoder) (reg : String → Option MEntityType) (rnds : Nat → Int)
    (s : Store) : Nat → List (List Nat) → Except Unit (List MEntity)
  | _, [] => .ok []
  | i, uid :: t =>
    match dec ((storeGet s (actorPrefixBytes ++ uid)).getD []) with
    | .error er => .error er
    | .ok (m, _) =>
      match loadEntity reg (rnds i) m with
      | some e => (loadActorLoop dec reg rnds s (i + 1) t).map (fun l => e :: l)
      | none => loadActorLoop dec reg rnds s (i + 1) t

/-- `LoadEntities`: decode the legacy inline stream, then — unless the
`digp` key is absent — the actor-storage records it lists. -/
def loadEntities (dec : NBTDecoder) (reg : String → Option MEntityType) (rnds : Nat → Int)
    (s : Store) (pos : Int × Int) (d : MDimension) : Except Unit (List MEntity) :=
  let legacyData := (storeGet s (indexKey pos d ++ [keyEntities])).getD []
  match decodeNBTStream dec (legacyData.length + 1) legacyData with
  | .error er => .error er
  | .ok ms =>
    match storeGet s (digpBytes ++ indexKey pos d) with
    | none => .ok (processEntities reg rnds 0 ms)
    | some digp =>
      (loadActorLoop dec reg rnds s ms.length (groups8 digp)).map
        (fun l => processEntities reg rnds 0 ms ++ l)

/-- Sequentially decoding one compound from each `actorprefix` record
listed in `digp` (a store miss leaves the empty buffer, which the decoder
then sees), with the first decode error aborting. -/
def decodeActorRecords (dec : NBTDecoder) (s : Store) : List (List Nat) → Except Unit (List MNBT)
  | [] => .ok []
  | uid :: t =>
    match dec ((storeGet s (actorPrefixBytes ++ uid)).getD []) with
    | .error er => .error er
    | .ok (m, _) => (decodeActorRecords dec s t).map (fun l => m :: l)

/-- The actor-storage loop equals decoding every listed record and then
running the same skip-on-`loadEntity`-failure processing as the legacy
loop. -/
theorem loadActorLoop_char (dec : NBTDecoder) (reg : String → Option MEntityType)
    (rnds : Nat → Int) (s : Store) :
    ∀ (uids : List (List Nat)) (i : Nat),
      loadActorLoop dec reg rnds s i uids =
        (decodeActorRecords dec s uids).map (fun ms => processEntities reg rnds i ms) := by
  intro uids
  induction uids with
  | nil => intro i; rfl
  | cons uid t ih =>
    intro i
    rw [show loadActorLoop dec reg rnds s i (uid :: t) =
        (match dec ((storeGet s (actorPrefixBytes ++ uid)).getD []) with
         | .error er => .error er
         | .ok (m, _) =>
           match loadEntity reg (rnds i) m with
           | some e => (loadActorLoop dec reg rnds s (i + 1) t).map (fun l => e :: l)
           | none => loadActorLoop dec reg rnds s (i + 1) t) from rfl]
    rw [show decodeActorRecords dec s (uid :: t) =
        (match dec ((storeGet s (actorPrefixBytes ++ uid)).getD []) with
         | .error er => .error er
         | .ok (m, _) => (decodeActorRecords dec s t).map (fun l => m :: l)) from rfl]
    cases hdec : dec ((storeGet s (actorPrefixBytes ++ uid)).getD []) with
    | error er => rfl
    | ok pr =>
      obtain ⟨m, rest⟩ := pr
      dsimp only
      rw [ih (i + 1)]
      cases hrec : decodeActorRecords dec s t with
      | error er => cases loadEntity reg (rnds i) m <;> rfl
      | ok l =>
        rw [show (Except.map (fun ms => processEntities reg rnds i ms)
              (Except.map (fun l2 => m :: l2) (Except.ok l)) : Except Unit (List MEntity)) =
            Except.ok (processEntities reg rnds i (m :: l)) from rfl]
        rw [show processEntities reg rnds i (m :: l) =
            (match loadEntity reg (rnds i) m with
             | some e => e :: processEntities reg rnds (i + 1) l
             | none => processEntities reg rnds (i + 1) l) from rfl]
        cases loadEntity reg (rnds i) m <;> rfl

/-- An NBT decoder that always fails. -/
def decFail : NBTDecoder := fun _ => .error ()

/-- A store holding a non-empty legacy inline entity stream for chunk
(0,0) of the overworld. -/
def c4Store : Store := [(indexKey (0, 0) MDimension.overworld ++ [keyEntities], [1, 2, 3])]

/-- C4, counterexample: the chunk has a non-empty legacy entity stream and
its NBT decoding fails; `LoadEntities` aborts with that error instead of
logging, skipping the entity and returning the rest. -/
theorem c4_decode_error_aborts_counterexample :
    storeGet c4Store (indexKey (0, 0) MDimension.overworld ++ [keyEntities]) = some [1, 2, 3] ∧
      loadEntities decFail (fun _ => none) (fun _ => 0) c4Store (0, 0) MDimension.overworld =
        .error () :=
  ⟨rfl, rfl⟩

/-- C4 (amended): (a) an NBT decode error in the legacy inline entity
stream aborts `LoadEntities` with an error; (b) when the legacy stream
decodes cleanly and no actor-storage index exists, every compound is run
through `loadEntity` and only its failures (logged in the source) are
skipped — shown by (c): the processing loop equals `filterMap loadEntity`
over the indexed compounds, so all successfully decoded entities are
returned; (d) an NBT decode error in any `actorprefix` record listed by
`digp` likewise aborts with an error; (e) when both the legacy stream and
every actor record decode cleanly, the result is the `loadEntity`
processing of the legacy compounds followed by that of the actor
compounds — the actor path skips `loadEntity` failures the same way. -/
theorem c4_load_entities_decode_errors (dec : NBTDecoder) (reg : String → Option MEntityType)
    (rnds : Nat → Int) (s : Store) (pos : Int × Int) (d : MDimension) :
    (decodeNBTStream dec
          (((storeGet s (indexKey pos d ++ [keyEntities])).getD []).length + 1)
          ((storeGet s (indexKey pos d ++ [keyEntities])).getD []) = .error () →
        loadEntities dec reg rnds s pos d = .error ()) ∧
      (∀ ms, decodeNBTStream dec
            (((storeGet s (indexKey pos d ++ [keyEntities])).getD []).length + 1)
            ((storeGet s (indexKey pos d ++ [keyEntities])).getD []) = .ok ms →
          storeGet s (digpBytes ++ indexKey pos d) = none →
          loadEntities dec reg rnds s pos d = .ok (processEntities reg rnds 0 ms)) ∧
      (∀ (i : Nat) (ms : List MNBT),
          processEntities reg rnds i ms =
            (List.enumFrom i ms).filterMap (fun p => loadEntity reg (rnds p.1) p.2)) ∧
      (∀ ms digp, decodeNBTStream dec
            (((storeGet s (indexKey pos d ++ [keyEntities])).getD []).length + 1)
            ((storeGet s (indexKey pos d ++ [keyEntities])).getD []) = .ok ms →
          storeGet s (digpBytes ++ indexKey pos d) = some digp →
          decodeActorRecords dec s (groups8 digp) = .error () →
          loadEntities dec reg rnds s pos d = .error ()) ∧
      (∀ ms digp ams, decodeNBTStream dec
            (((storeGet s (indexKey pos d ++ [keyEntities])).getD []).length + 1)
            ((storeGet s (indexKey pos d ++ [keyEntities])).getD []) = .ok ms →
          storeGet s (digpBytes ++ indexKey pos d) = some digp →
          decodeActorRecords dec s (groups8 digp) = .ok ams →
          loadEntities dec reg rnds s pos d =
            .ok (processEntities reg rnds 0 ms ++ processEntities reg rnds ms.length ams)) := by
  refine ⟨?_, ?_, ?_, ?_, ?_⟩
  · intro h
    unfold loadEntities
    dsimp only
    rw [h]
  · intro ms h hdigp
    unfold loadEntities
    dsimp only
    rw [h, hdigp]
  · intro i ms
    induction ms generalizing i with
    | nil => rfl
    | cons m t ih =>
      rw [show List.enumFrom i (m :: t) = (i, m) :: List.enumFrom (i + 1) t from rfl]
      rw [List.filterMap_cons]
      rw [show processEntities reg rnds i (m :: t) =
          (match loadEntity reg (rnds i) m with
           | some e => e :: processEntities reg rnds (i + 1) t
           | none => processEntities reg rnds (i + 1) t) from rfl]
      cases loadEntity reg (rnds i) m with
      | none => exact ih (i + 1)
      | some e => rw [ih (i + 1)]
  · intro ms digp h hdigp hact
    unfold loadEntities
    dsimp only
    rw [h, hdigp]
    dsimp only
    rw [loadActorLoop_char, hact]
    rfl
  · intro ms digp ams h hdigp hact
    unfold loadEntities
    dsimp only
    rw [h, hdigp]
    dsimp only
    rw [loadActorLoop_char, hact]
    rfl

/-- A store holding an actor-storage index (`digp`) for chunk (0,0) of the
overworld that lists one unique ID whose `actorprefix` record is absent. -/
def c4ActorStore : Store :=
  [(digpBytes ++ indexKey (0, 0) MDimension.overworld, [0, 0, 0, 0, 0, 0, 0, 0])]

/-- An NBT decoder that consumes nothing and yields an empty compound. -/
def decEmptyOk : NBTDecoder := fun b => .ok ([], b)

/-- Witness for `c4_load_entities_decode_errors`: parts (a) and (d) at
concrete failing stores/decoders, parts (b) and (e) at succeeding ones. -/
theorem c4_load_entities_decode_errors_witness :
    loadEntities decFail (fun _ => none) (fun _ => 0) c4Store (0, 0) MDimension.overworld =
        .error () ∧
      loadEntities decFail (fun _ => none) (fun _ => 0) [] (0, 0) MDimension.overworld =
        .ok [] ∧
      loadEntities decFail (fun _ => none) (fun _ => 0) c4ActorStore (0, 0)
          MDimension.overworld = .error () ∧
      loadEntities decEmptyOk (fun _ => none) (fun _ => 0) c4ActorStore (0, 0)
          MDimension.overworld = .ok [] :=
  ⟨(c4_load_entities_decode_errors decFail (fun _ => none) (fun _ => 0) c4Store (0, 0)
        MDimension.overworld).1 rfl,
    (c4_load_entities_decode_errors decFail (fun _ => none) (fun _ => 0) [] (0, 0)
        MDimension.overworld).2.1 [] rfl rfl,
    (c4_load_entities_decode_errors decFail (fun _ => none) (fun _ => 0) c4ActorStore (0, 0)
        MDimension.overworld).2.2.2.1 [] [0, 0, 0, 0, 0, 0, 0, 0] rfl rfl rfl,
    (c4_load_entities_decode_errors decEmptyOk (fun _ => none) (fun _ => 0) c4ActorStore (0, 0)
        MDimension.overworld).2.2.2.2 [] [0, 0, 0, 0, 0, 0, 0, 0] [[]] rfl rfl rfl⟩

/-! ## Entity saving (`mcdb/db.go`, `SaveEntities`)

An entity is represented by what `SaveEntities` extracts from it: whether
its type is a `world.SaveableEntityType`, and if so the `UniqueID` of its
encoded NBT (absent when the encoder emitted none — then `rand.Int63()` is
used) and the encoded bytes. NBT encoding itself is external and assumed
to succeed; the store is the reliable association-list model, so every
run completes successfully, which is the case the claims quantify over. -/

structure MSaveEntity where
  saveable : Option (Option Int × List Nat)
deriving DecidableEq

def actorIndexKey (uid : Int) : List Nat := actorPrefixBytes ++ le64 (toU64 uid)

/-- The write loop of `SaveEntities`: skip entities whose type is not
saveable (`continue`); write every other entity's record under its
`actorprefix` key and collect its unique ID, in entity order. -/
def saveEntitiesLoop (rnds : Nat → Int) : Store → Nat → List MSaveEntity → Store × List Int
  | s, _, [] => (s, [])
  | s, i, e :: t =>
    match e.saveable with
    | none => saveEntitiesLoop rnds s i t
    | some (uidOpt, bytes) =>
      let uid := uidOpt.getD (rnds i)
      let pr := saveEntitiesLoop rnds (storePut s (actorIndexKey uid) bytes) (i + 1) t
      (pr.1, uid :: pr.2)

/-- `SaveEntities`: read the previous UID list from `digp`, write the live
entities, delete `actorprefix` records no longer referenced, then — for an
*empty* entity list — delete the `digp` key and return; otherwise write the
new UID list under `digp` and delete the legacy inline stream key. -/
def saveEntities (rnds : Nat → Int) (s : Store) (pos : Int × Int) (d : MDimension)
    (entities : List MSaveEntity) : Store × Except Unit Unit :=
  let digpKey := digpBytes ++ indexKey pos d
  let prevIDs := (groups8 ((storeGet s digpKey).getD [])).map fromLE64
  let pr := saveEntitiesLoop rnds s 0 entities
  let s2 := prevIDs.foldl
    (fun st uid => if uid ∈ pr.2 then st else storeDel st (actorIndexKey uid)) pr.1
  if entities = [] then (storeDel s2 digpKey, .ok ())
  else
    (storeDel (storePut s2 digpKey (pr.2.flatMap fun uid => le64 (toU64 uid)))
        (indexKey pos d ++ [keyEntities]),
      .ok ())

theorem indexKey_length (pos : Int × Int) (d : MDimension) :
    (indexKey pos d).length = 8 ∨ (indexKey pos d).length = 12 := by
  cases d
  · left; rfl
  · right; rfl
  · right; rfl
  · left; rfl

theorem ne_of_length_ne {α : Type} {l1 l2 : List α} (h : l1.length ≠ l2.length) : l1 ≠ l2 :=
  fun he => h (congrArg List.length he)

theorem digpKey_ne_legacyKey (pos : Int × Int) (d : MDimension) :
    digpBytes ++ indexKey pos d ≠ indexKey pos d ++ [keyEntities] := by
  refine ne_of_length_ne ?_
  simp [digpBytes, List.length_append]
  omega

theorem actorKey_ne_digpKey (uid : Int) (pos : Int × Int) (d : MDimension) :
    actorIndexKey uid ≠ digpBytes ++ indexKey pos d := by
  refine ne_of_length_ne ?_
  rcases indexKey_length pos d with h | h <;>
    simp [actorIndexKey, actorPrefixBytes, digpBytes, le64, List.length_append, h]

theorem actorKey_ne_legacyKey (uid : Int) (pos : Int × Int) (d : MDimension) :
    actorIndexKey uid ≠ indexKey pos d ++ [keyEntities] := by
  refine ne_of_length_ne ?_
  rcases indexKey_length pos d with h | h <;>
    simp [actorIndexKey, actorPrefixBytes, le64, List.length_append, h]

/-- The write loop only touches `actorprefix` keys. -/
theorem saveEntitiesLoop_get_other (rnds : Nat → Int) (k : MKey)
    (hk : ∀ uid, k ≠ actorIndexKey uid) :
    ∀ (ents : List MSaveEntity) (s : Store) (i : Nat),
      storeGet (saveEntitiesLoop rnds s i ents).1 k = storeGet s k := by
  intro ents
  induction ents with
  | nil => intro s i; rfl
  | cons e t ih =>
    intro s i
    rw [show saveEntitiesLoop rnds s i (e :: t) =
        (match e.saveable with
         | none => saveEntitiesLoop rnds s i t
         | some (uidOpt, bytes) =>
           let pr := saveEntitiesLoop rnds
             (storePut s (actorIndexKey (uidOpt.getD (rnds i))) bytes) (i + 1) t
           (pr.1, uidOpt.getD (rnds i) :: pr.2)) from rfl]
    cases e.saveable with
    | none => exact ih s i
    | some pr0 =>
      obtain ⟨uidOpt, bytes⟩ := pr0
      dsimp only
      rw [ih _ (i + 1)]
      exact storeGet_put_ne _ _ _ _ (hk _)

/-- The unreferenced-UID cleanup only touches `actorprefix` keys. -/
theorem cleanup_get_other (uids : List Int) (k : MKey) (hk : ∀ uid, k ≠ actorIndexKey uid) :
    ∀ (ids : List Int) (st : Store),
      storeGet (ids.foldl (fun st2 uid => if uid ∈ uids then st2
          else storeDel st2 (actorIndexKey uid)) st) k = storeGet st k := by
  intro ids
  induction ids with
  | nil => intro st; rfl
  | cons x t ih =>
    intro st
    rw [List.foldl_cons]
    rw [ih]
    by_cases hx : x ∈ uids
    · rw [if_pos hx]
    · rw [if_neg hx]
      exact storeGet_del_ne _ _ _ (hk x)

/-- A non-saveable-only entity list. -/
def nonSaveableEntity : MSaveEntity := ⟨none⟩

/-- C7, counterexample: saving a non-empty entity list whose single entity
is not saveable persists *zero* unique IDs, yet `SaveEntities` succeeds and
leaves the `digp` key present (with an empty value) — the claim's "absent
when no entity is persisted" fails. -/
theorem c7_digp_empty_record_counterexample :
    (saveEntitiesLoop (fun _ => 0) [] 0 [nonSaveableEntity]).2 = [] ∧
      (saveEntities (fun _ => 0) [] (0, 0) MDimension.overworld [nonSaveableEntity]).2 =
        .ok () ∧
      storeGet (saveEntities (fun _ => 0) [] (0, 0) MDimension.overworld [nonSaveableEntity]).1
          (digpBytes ++ indexKey (0, 0) MDimension.overworld) = some [] :=
  ⟨rfl, rfl, rfl⟩

/-- C7 (amended): after `SaveEntities` completes, the `digp` key is present
iff the *entity list* was non-empty — even when none of those entities was
persisted (then the record is empty); with an empty entity list the key is
deleted. -/
theorem c7_digp_presence (rnds : Nat → Int) (s : Store) (pos : Int × Int) (d : MDimension)
    (entities : List MSaveEntity) :
    (storeGet (saveEntities rnds s pos d entities).1 (digpBytes ++ indexKey pos d)).isSome =
        true ↔ entities ≠ [] := by
  by_cases he : entities = []
  · subst he
    unfold saveEntities
    dsimp only
    rw [if_pos rfl]
    simp [storeGet_del_self]
  · unfold saveEntities
    dsimp only
    rw [if_neg he]
    dsimp only
    rw [storeGet_del_ne _ _ _ (digpKey_ne_legacyKey pos d)]
    rw [storeGet_put_self]
    simp [he]

/-- A store holding only a legacy inline entity stream for chunk (0,0) of
the overworld. -/
def c8Store : Store := [(indexKey (0, 0) MDimension.overworld ++ [keyEntities], [9])]

/-- C8, counterexample: a successful `SaveEntities` with the *empty*
entity list returns early after deleting `digp` and leaves the legacy
inline entity stream key in place. -/
theorem c8_legacy_key_survives_counterexample :
    (saveEntities (fun _ => 0) c8Store (0, 0) MDimension.overworld []).2 = .ok () ∧
      storeGet (saveEntities (fun _ => 0) c8Store (0, 0) MDimension.overworld []).1
          (indexKey (0, 0) MDimension.overworld ++ [keyEntities]) = some [9] :=
  ⟨rfl, rfl⟩

/-- C8 (amended): a successful `SaveEntities` deletes the legacy inline
entity stream key when the entity list is non-empty; with the empty list it
returns after deleting `digp` and the legacy key is left untouched. -/
theorem c8_legacy_key_deletion (rnds : Nat → Int) (s : Store) (pos : Int × Int)
    (d : MDimension) (entities : List MSaveEntity) :
    (entities ≠ [] →
        storeGet (saveEntities rnds s pos d entities).1 (indexKey pos d ++ [keyEntities]) =
          none) ∧
      (entities = [] →
        storeGet (saveEntities rnds s pos d entities).1 (indexKey pos d ++ [keyEntities]) =
          storeGet s (indexKey pos d ++ [keyEntities])) := by
  constructor
  · intro he
    unfold saveEntities
    dsimp only
    rw [if_neg he]
    exact storeGet_del_self _ _
  · intro he
    subst he
    unfold saveEntities
    dsimp only
    rw [if_pos rfl]
    dsimp only
    rw [storeGet_del_ne _ _ _ (digpKey_ne_legacyKey pos d).symm]
    rw [cleanup_get_other _ _ (fun uid => (actorKey_ne_legacyKey uid pos d).symm)]
    rfl

/-- Witness for `c8_legacy_key_deletion`: the non-empty branch deletes the
legacy key; the empty branch leaves the concrete store's legacy record. -/
theorem c8_legacy_key_deletion_witness :
    storeGet (saveEntities (fun _ => 0) c8Store (0, 0) MDimension.overworld
          [⟨some (some 5, [1])⟩]).1
        (indexKey (0, 0) MDimension.overworld ++ [keyEntities]) = none ∧
      storeGet (saveEntities (fun _ => 0) c8Store (0, 0) MDimension.overworld []).1
          (indexKey (0, 0) MDimension.overworld ++ [keyEntities]) =
        storeGet c8Store (indexKey (0, 0) MDimension.overworld ++ [keyEntities]) :=
  ⟨(c8_legacy_key_deletion (fun _ => 0) c8Store (0, 0) MDimension.overworld
        [⟨some (some 5, [1])⟩]).1 (by simp),
    (c8_legacy_key_deletion (fun _ => 0) c8Store (0, 0) MDimension.overworld []).2 rfl⟩

/-- Witness for `c7_digp_presence`: the key is present after saving one
(non-saveable) entity and absent after saving the empty list. -/
theorem c7_digp_presence_witness :
    ((storeGet (saveEntities (fun _ => 0) [] (0, 0) MDimension.overworld
            [nonSaveableEntity]).1 (digpBytes ++ indexKey (0, 0) MDimension.overworld)).isSome =
        true) ∧
      ¬((storeGet (saveEntities (fun _ => 0) [] (0, 0) MDimension.overworld []).1
            (digpBytes ++ indexKey (0, 0) MDimension.overworld)).isSome = true) :=
  ⟨(c7_digp_presence (fun _ => 0) [] (0, 0) MDimension.overworld [nonSaveableEntity]).mpr
      (by simp),
    fun h =>
      (by simp : ¬([] : List MSaveEntity) ≠ [])
        ((c7_digp_presence (fun _ => 0) [] (0, 0) MDimension.overworld []).mp h)⟩
